import Mathlib

/-!
Verification of the selective message-removal protocol of reana-server
(the `MessageConsumer` administrative scan and the
`WorkflowSubmissionPublisher`), as described by the repository's design
specification and exercised by `tests/test_cli.py`
(`TestMessageConsumer.test_do_not_remove_message`,
`TestMessageConsumer.test_removes_message`).

The queue is a FIFO list of wire payloads; `consumeOne` takes from the
head, `publish`/`republish` append to the tail.  The Selective Consumer
performs a bounded scan: up to `limit` times it consumes one message,
deletes it when its configured `key` field has a value in
`valuesToDelete`, and otherwise republishes it unchanged to the tail.
-/

/-- Modelled from the spec: the wire contract (§6) — a structured record
with `workflow_id`, `workflow_id_or_name` and an open mapping of
additional parameters.  The concrete `reana_server` publisher/consumer
code is not part of the visible sources, only its tests are. -/
structure SubmissionMessage where
  workflow_id : String
  workflow_id_or_name : String
  parameters : List (String × String)
deriving DecidableEq

/-- Modelled from the spec: a wire payload.  The encoding is
implementation-defined (§6); we use a flat token stream that round-trips
byte-for-byte, as the spec requires. -/
abbrev Payload := List String

/-- Modelled from the spec: encoding of the open parameter mapping as
alternating key/value tokens. -/
def encodeParams : List (String × String) → List String
  | [] => []
  | (k, v) :: rest => k :: v :: encodeParams rest

/-- Modelled from the spec: serialization of a `SubmissionMessage` onto
the wire. -/
def encode (sm : SubmissionMessage) : Payload :=
  sm.workflow_id :: sm.workflow_id_or_name :: encodeParams sm.parameters

/-- Modelled from the spec: decoding of the parameter token stream. -/
def decodeParams : List String → Option (List (String × String))
  | [] => some []
  | [_] => none
  | k :: v :: rest => (decodeParams rest).map (fun ps => (k, v) :: ps)

/-- Modelled from the spec: deserialization of a wire payload; a payload
that does not decode is a malformed message (§4.2 edge cases). -/
def decode : Payload → Option SubmissionMessage
  | wid :: widn :: rest => (decodeParams rest).map (SubmissionMessage.mk wid widn)
  | _ => none

/-- Modelled from the spec: `ConsumerFilter` (§3) — the field name to
inspect and the deletion set. -/
structure ConsumerFilter where
  key : String
  valuesToDelete : List String
deriving DecidableEq

/-- Modelled from the spec: `ScanResult` (§3). -/
structure ScanResult where
  inspected : Nat
  deleted : Nat
  requeued : Nat
deriving DecidableEq

/-- Modelled from the spec: `extract(msg, key)` (§4.2) — look up the
configured field in the decoded message; `none` when the payload is
malformed or the field is absent. -/
def extract (p : Payload) (key : String) : Option String :=
  match decode p with
  | none => none
  | some sm =>
    if key == "workflow_id" then some sm.workflow_id
    else if key == "workflow_id_or_name" then some sm.workflow_id_or_name
    else (sm.parameters.find? (fun kv => kv.1 == key)).map (fun kv => kv.2)

/-- Modelled from the spec: the deletion test of §4.2 — `value is present
and value ∈ valuesToDelete`; a message with no extractable value is
treated as non-matching. -/
def matchesFilter (f : ConsumerFilter) (p : Payload) : Bool :=
  match extract p f.key with
  | some v => f.valuesToDelete.contains v
  | none => false

/-- Modelled from the spec: broker `consumeOne` (§4.3) — FIFO consume
from the head, `none` on a drained queue. -/
def consumeOne : List Payload → Option (Payload × List Payload)
  | [] => none
  | p :: rest => some (p, rest)

/-- Modelled from the spec: broker `publish`/republish (§4.3) — append
the payload unchanged to the tail of the queue. -/
def republish (q : List Payload) (p : Payload) : List Payload :=
  q ++ [p]

/-- Modelled from the spec: the Submission Publisher (§4.1) — serialize
and enqueue one `SubmissionMessage`. -/
def publishSubmission (q : List Payload) (wid widn : String)
    (params : List (String × String)) : List Payload :=
  republish q (encode ⟨wid, widn, params⟩)

/-- Modelled from the spec: `scan(limit)` (§4.2) — the bounded
scan-and-requeue pass.  Returns the `ScanResult` together with the final
queue state. -/
def scan (f : ConsumerFilter) : Nat → List Payload → ScanResult × List Payload
  | 0, q => (⟨0, 0, 0⟩, q)
  | n + 1, q =>
    match consumeOne q with
    | none => (⟨0, 0, 0⟩, q)
    | some (m, rest) =>
      if matchesFilter f m then
        let res := scan f n rest
        (⟨res.1.inspected + 1, res.1.deleted + 1, res.1.requeued⟩, res.2)
      else
        let res := scan f n (republish rest m)
        (⟨res.1.inspected + 1, res.1.deleted, res.1.requeued + 1⟩, res.2)

/-- Modelled from the spec: the sequence of messages consumed by
`scan(limit)` in consumption order, used to state the §4.2 termination
argument (which messages a scan inspects). -/
def inspectedMsgs (f : ConsumerFilter) : Nat → List Payload → List Payload
  | 0, _ => []
  | n + 1, q =>
    match consumeOne q with
    | none => []
    | some (m, rest) =>
      if matchesFilter f m then m :: inspectedMsgs f n rest
      else m :: inspectedMsgs f n (republish rest m)

/-- Modelled from the spec: §7 error handling — `scan` with a fallible
republish step.  `pub m = false` means republishing `m` raises
`PublishError`; the error carries the partial `ScanResult` accumulated
before the failure together with the queue state at the failure. -/
def scanE (pub : Payload → Bool) (f : ConsumerFilter) :
    Nat → List Payload → Except (ScanResult × List Payload) (ScanResult × List Payload)
  | 0, q => .ok (⟨0, 0, 0⟩, q)
  | n + 1, q =>
    match consumeOne q with
    | none => .ok (⟨0, 0, 0⟩, q)
    | some (m, rest) =>
      if matchesFilter f m then
        match scanE pub f n rest with
        | .ok (r, q') => .ok (⟨r.inspected + 1, r.deleted + 1, r.requeued⟩, q')
        | .error (r, q') => .error (⟨r.inspected + 1, r.deleted + 1, r.requeued⟩, q')
      else
        if pub m then
          match scanE pub f n (republish rest m) with
          | .ok (r, q') => .ok (⟨r.inspected + 1, r.deleted, r.requeued + 1⟩, q')
          | .error (r, q') => .error (⟨r.inspected + 1, r.deleted, r.requeued + 1⟩, q')
        else
          .error (⟨0, 0, 0⟩, rest)

/-- Modelled from the spec: big-step run relation for one `scan` call,
mirroring the §4.2 loop one rule per branch.  Used to state determinism
of the scan without assuming it is a function. -/
inductive ScanRun (f : ConsumerFilter) : Nat → List Payload → ScanResult × List Payload → Prop
  | stop (q : List Payload) : ScanRun f 0 q (⟨0, 0, 0⟩, q)
  | drained (n : Nat) : ScanRun f (n + 1) [] (⟨0, 0, 0⟩, [])
  | delete {n : Nat} {m : Payload} {rest : List Payload} {r : ScanResult} {q' : List Payload}
      (hm : matchesFilter f m = true) (h : ScanRun f n rest (r, q')) :
      ScanRun f (n + 1) (m :: rest) (⟨r.inspected + 1, r.deleted + 1, r.requeued⟩, q')
  | requeue {n : Nat} {m : Payload} {rest : List Payload} {r : ScanResult} {q' : List Payload}
      (hm : matchesFilter f m = false) (h : ScanRun f n (republish rest m) (r, q')) :
      ScanRun f (n + 1) (m :: rest) (⟨r.inspected + 1, r.deleted, r.requeued + 1⟩, q')

/-! Sanity checks of the model against `tests/test_cli.py`:
`test_do_not_remove_message` publishes workflow `"workflow.1"`, scans
with `values_to_delete=["some_other_name"]` and `limit=1`, and asserts
the queue is non-empty; `test_removes_message` scans the same queue with
`values_to_delete=["workflow.1"]` and asserts the queue is empty. -/

theorem model_test_do_not_remove_message :
    (scan ⟨"workflow_id_or_name", ["some_other_name"]⟩ 1
      (publishSubmission [] "1" "workflow.1" [])).2 ≠ [] := by
  decide

theorem model_test_removes_message :
    (scan ⟨"workflow_id_or_name", ["workflow.1"]⟩ 1
      (publishSubmission [] "1" "workflow.1" [])).2 = [] := by
  decide

/-! Core structural lemmas about one scan pass. -/

/-- With `limit ≤ depth`, a scan inspects exactly the first `limit`
messages: it deletes the matching ones among them, requeues the
non-matching ones in order, and leaves the rest of the queue ahead of
the requeued tail. -/
theorem scan_spec (f : ConsumerFilter) (n : Nat) (q : List Payload) (h : n ≤ q.length) :
    scan f n q =
      (⟨n, ((q.take n).filter (fun m => matchesFilter f m)).length,
          ((q.take n).filter (fun m => !matchesFilter f m)).length⟩,
        q.drop n ++ (q.take n).filter (fun m => !matchesFilter f m)) := by
  induction n generalizing q with
  | zero => simp [scan]
  | succ n ih =>
    cases q with
    | nil => simp at h
    | cons m rest =>
      have h' : n ≤ rest.length := by simpa using h
      cases hm : matchesFilter f m with
      | true =>
        simp [scan, consumeOne, hm, ih rest h']
      | false =>
        have h'' : n ≤ (rest ++ [m]).length := by
          simp; omega
        simp [scan, consumeOne, hm, ih (rest ++ [m]) h'', republish,
          List.take_append_of_le_length h', List.drop_append_of_le_length h']

/-- With `limit ≤ depth`, the messages consumed by the scan are exactly
the first `limit` messages of the pre-scan queue, in order. -/
theorem inspectedMsgs_spec (f : ConsumerFilter) (n : Nat) (q : List Payload)
    (h : n ≤ q.length) : inspectedMsgs f n q = q.take n := by
  induction n generalizing q with
  | zero => simp [inspectedMsgs]
  | succ n ih =>
    cases q with
    | nil => simp at h
    | cons m rest =>
      have h' : n ≤ rest.length := by simpa using h
      cases hm : matchesFilter f m with
      | true => simp [inspectedMsgs, consumeOne, hm, ih rest h']
      | false =>
        have h'' : n ≤ (rest ++ [m]).length := by
          simp; omega
        simp [inspectedMsgs, consumeOne, hm, ih (rest ++ [m]) h'', republish,
          List.take_append_of_le_length h']

/-- Every iteration counts the consumed message as either deleted or
requeued, for every limit and every queue (no precondition). -/
theorem scan_deleted_add_requeued (f : ConsumerFilter) (n : Nat) (q : List Payload) :
    (scan f n q).1.deleted + (scan f n q).1.requeued = (scan f n q).1.inspected := by
  induction n generalizing q with
  | zero => simp [scan]
  | succ n ih =>
    cases q with
    | nil => simp [scan, consumeOne]
    | cons m rest =>
      cases hm : matchesFilter f m with
      | true =>
        have := ih rest
        simp [scan, consumeOne, hm]
        omega
      | false =>
        have := ih (republish rest m)
        simp [scan, consumeOne, hm]
        omega

/-- The scan performs at most `limit` iterations, for every limit and
every queue (no precondition). -/
theorem scan_inspected_le (f : ConsumerFilter) (n : Nat) (q : List Payload) :
    (scan f n q).1.inspected ≤ n := by
  induction n generalizing q with
  | zero => simp [scan]
  | succ n ih =>
    cases q with
    | nil => simp [scan, consumeOne]
    | cons m rest =>
      cases hm : matchesFilter f m with
      | true =>
        have := ih rest
        simp [scan, consumeOne, hm]
        omega
      | false =>
        have := ih (republish rest m)
        simp [scan, consumeOne, hm]
        omega

/-! Lemmas about the fallible-republish scan and the run relation. -/

/-- When every republish succeeds, the fallible scan agrees with the
plain scan. -/
theorem scanE_ok (pub : Payload → Bool) (f : ConsumerFilter)
    (hpub : ∀ m, pub m = true) (n : Nat) (q : List Payload) :
    scanE pub f n q = .ok (scan f n q) := by
  induction n generalizing q with
  | zero => simp [scanE, scan]
  | succ n ih =>
    cases q with
    | nil => simp [scanE, scan, consumeOne]
    | cons m rest =>
      cases hm : matchesFilter f m with
      | true => simp [scanE, scan, consumeOne, hm, ih rest]
      | false => simp [scanE, scan, consumeOne, hm, hpub m, ih (republish rest m)]

/-- Characterization of a failed scan: when `limit ≤ depth` and the
fallible scan surfaces an error, the partial result counts exactly the
`k` messages processed before the failing republish, and the queue at
the failure holds the unprocessed suffix followed by the messages
requeued so far — the matching messages among the first `k` are gone. -/
theorem scanE_error_spec (pub : Payload → Bool) (f : ConsumerFilter)
    (n : Nat) (q : List Payload) (r : ScanResult) (q' : List Payload)
    (h : n ≤ q.length) (he : scanE pub f n q = .error (r, q')) :
    ∃ k, k < n ∧
      r = ⟨k, ((q.take k).filter (fun m => matchesFilter f m)).length,
            ((q.take k).filter (fun m => !matchesFilter f m)).length⟩ ∧
      q' = q.drop (k + 1) ++ (q.take k).filter (fun m => !matchesFilter f m) := by
  induction n generalizing q r q' with
  | zero => simp [scanE] at he
  | succ n ih =>
    cases q with
    | nil => simp [scanE, consumeOne] at he
    | cons m rest =>
      have h' : n ≤ rest.length := by simpa using h
      cases hm : matchesFilter f m with
      | true =>
        cases hrec : scanE pub f n rest with
        | ok v => simp [scanE, consumeOne, hm, hrec] at he
        | error v =>
          obtain ⟨r₀, q₀⟩ := v
          simp only [scanE, consumeOne, hm, hrec, if_true] at he
          obtain ⟨hr, hq⟩ := by
            simpa using he
          obtain ⟨k, hk, hr₀, hq₀⟩ := ih rest r₀ q₀ h' hrec
          refine ⟨k + 1, by omega, ?_, ?_⟩
          · rw [← hr, hr₀]
            simp [hm]
          · rw [← hq, hq₀]
            simp [hm]
      | false =>
        cases hp : pub m with
        | false =>
          simp only [scanE, consumeOne, hm, hp] at he
          obtain ⟨hr, hq⟩ := by
            simpa using he
          exact ⟨0, by omega, by simp [← hr], by simp [← hq]⟩
        | true =>
          cases hrec : scanE pub f n (republish rest m) with
          | ok v => simp [scanE, consumeOne, hm, hp, hrec] at he
          | error v =>
            obtain ⟨r₀, q₀⟩ := v
            simp only [scanE, consumeOne, hm, hp, hrec] at he
            obtain ⟨hr, hq⟩ := by
              simpa using he
            have hlen : n ≤ (rest ++ [m]).length := by simp; omega
            obtain ⟨k, hk, hr₀, hq₀⟩ := ih (republish rest m) r₀ q₀ (by simpa [republish] using hlen) hrec
            have hkr : k ≤ rest.length := by omega
            have hk1 : k + 1 ≤ rest.length := by omega
            refine ⟨k + 1, by omega, ?_, ?_⟩
            · rw [← hr, hr₀]
              simp [hm, republish, List.take_append_of_le_length hkr]
            · rw [← hq, hq₀]
              simp [hm, republish, List.take_append_of_le_length hkr,
                List.drop_append_of_le_length hk1]

/-- The functional scan realizes a run of the big-step relation. -/
theorem scanRun_scan (f : ConsumerFilter) (n : Nat) (q : List Payload) :
    ScanRun f n q (scan f n q) := by
  induction n generalizing q with
  | zero => exact ScanRun.stop q
  | succ n ih =>
    cases q with
    | nil => exact ScanRun.drained n
    | cons m rest =>
      cases hm : matchesFilter f m with
      | true =>
        have h := ih rest
        simp only [scan, consumeOne, hm, if_true]
        exact ScanRun.delete hm h
      | false =>
        have h := ih (republish rest m)
        simp only [scan, consumeOne, hm, Bool.false_eq_true, if_false]
        exact ScanRun.requeue hm h

/-- Every run of the big-step relation computes the functional scan. -/
theorem scanRun_eq (f : ConsumerFilter) {n : Nat} {q : List Payload}
    {out : ScanResult × List Payload} (h : ScanRun f n q out) :
    out = scan f n q := by
  induction h with
  | stop q => simp [scan]
  | drained n => simp [scan, consumeOne]
  | delete hm h ih => simp [scan, consumeOne, hm, ← ih]
  | requeue hm h ih => simp [scan, consumeOne, hm, ← ih]

/-! Round-trip of the wire encoding. -/

/-- Decoding inverts encoding on the parameter mapping. -/
theorem decodeParams_encodeParams (ps : List (String × String)) :
    decodeParams (encodeParams ps) = some ps := by
  induction ps with
  | nil => rfl
  | cons kv rest ih =>
    obtain ⟨k, v⟩ := kv
    simp [encodeParams, decodeParams, ih]

/-- Decoding inverts encoding on whole submission messages. -/
theorem decode_encode (sm : SubmissionMessage) : decode (encode sm) = some sm := by
  obtain ⟨wid, widn, ps⟩ := sm
  simp [encode, decode, decodeParams_encodeParams]

/-! Claim theorems. -/

/-- C1: after `scan(limit = depth-at-call-start)`, every message whose
`key` field has a value in `valuesToDelete` is absent from the queue;
since the statement quantifies over all such messages, all instances
sharing a matching key value are deleted simultaneously. -/
theorem scan_deletes_matching (f : ConsumerFilter) (q : List Payload)
    (m : Payload) (v : String)
    (hv : extract m f.key = some v) (hin : v ∈ f.valuesToDelete) :
    m ∉ (scan f q.length q).2 := by
  have hm : matchesFilter f m = true := by
    simp [matchesFilter, hv, hin]
  rw [scan_spec f q.length q le_rfl]
  simp [hm]

/-- C1 witness: two distinct messages share the matching key value
`"workflow.1"`; the first one is absent after the scan. -/
theorem scan_deletes_matching_witness :
    extract ["1", "workflow.1"] "workflow_id_or_name" = some "workflow.1" ∧
    "workflow.1" ∈ ["workflow.1"] ∧
    ["1", "workflow.1"] ∉
      (scan ⟨"workflow_id_or_name", ["workflow.1"]⟩
        [["1", "workflow.1"], ["2", "x"], ["3", "workflow.1"]].length
        [["1", "workflow.1"], ["2", "x"], ["3", "workflow.1"]]).2 :=
  ⟨by decide, by decide,
    scan_deletes_matching ⟨"workflow_id_or_name", ["workflow.1"]⟩
      [["1", "workflow.1"], ["2", "x"], ["3", "workflow.1"]]
      ["1", "workflow.1"] "workflow.1" (by decide) (by decide)⟩

/-- C2: after `scan(limit = depth-at-call-start)`, a message whose `key`
field has a value outside `valuesToDelete` occurs in the final queue
exactly as often as before — never duplicated and never dropped — and
byte-identically (occurrences are counted by full-payload equality); in
particular a message present exactly once stays present exactly once. -/
theorem scan_preserves_nonmatching (f : ConsumerFilter) (q : List Payload)
    (m : Payload) (v : String)
    (hv : extract m f.key = some v) (hout : v ∉ f.valuesToDelete) :
    List.count m (scan f q.length q).2 = List.count m q ∧
    (List.count m q = 1 → List.count m (scan f q.length q).2 = 1) := by
  have hm : matchesFilter f m = false := by
    simp [matchesFilter, hv, hout]
  rw [scan_spec f q.length q le_rfl]
  simp only [List.take_length, List.drop_length, List.nil_append]
  constructor
  · exact List.count_filter (by simp [hm])
  · intro h1
    rw [List.count_filter (by simp [hm]), h1]

/-- C2 witness: the non-matching message of test scenario A is still
present exactly once after the scan. -/
theorem scan_preserves_nonmatching_witness :
    extract ["1", "workflow.1"] "workflow_id_or_name" = some "workflow.1" ∧
    "workflow.1" ∉ ["some_other_name"] ∧
    List.count ["1", "workflow.1"]
      (scan ⟨"workflow_id_or_name", ["some_other_name"]⟩
        [["1", "workflow.1"]].length [["1", "workflow.1"]]).2 =
      List.count ["1", "workflow.1"] [["1", "workflow.1"]] :=
  ⟨by decide, by decide,
    (scan_preserves_nonmatching ⟨"workflow_id_or_name", ["some_other_name"]⟩
      [["1", "workflow.1"]] ["1", "workflow.1"] "workflow.1"
      (by decide) (by decide)).1⟩

/-- C3: with `limit` equal to the queue depth at call start, the scan
performs at most `limit` iterations, and the sequence of messages it
consumes is exactly the pre-scan queue content — every inspected message
existed before the scan started, and no message republished during the
scan is consumed again within the same call. -/
theorem scan_snapshot_termination (f : ConsumerFilter) (n : Nat)
    (q : List Payload) (h : n = q.length) :
    (scan f n q).1.inspected ≤ n ∧ inspectedMsgs f n q = q := by
  subst h
  refine ⟨scan_inspected_le f q.length q, ?_⟩
  rw [inspectedMsgs_spec f q.length q le_rfl, List.take_length]

/-- C3 witness: a two-message queue scanned with `limit = 2` inspects
exactly its two original messages. -/
theorem scan_snapshot_termination_witness :
    (2 : Nat) = [["1", "workflow.1"], ["2", "x"]].length ∧
    (scan ⟨"workflow_id_or_name", ["some_other_name"]⟩ 2
      [["1", "workflow.1"], ["2", "x"]]).1.inspected ≤ 2 ∧
    inspectedMsgs ⟨"workflow_id_or_name", ["some_other_name"]⟩ 2
      [["1", "workflow.1"], ["2", "x"]] = [["1", "workflow.1"], ["2", "x"]] :=
  ⟨by decide,
    scan_snapshot_termination ⟨"workflow_id_or_name", ["some_other_name"]⟩ 2
      [["1", "workflow.1"], ["2", "x"]] (by decide)⟩

/-- C4 counterexample: with `limit = 2` on a queue holding one
non-matching message, the requeued message is consumed a second time, so
`inspected = 2` while `min(limit, d) = 1`; the claimed equation fails
for calls whose `limit` exceeds the depth at call start. -/
theorem scan_result_invariant_cex :
    ¬ ((scan ⟨"workflow_id_or_name", ["some_other_name"]⟩ 2
        [["1", "workflow.1"]]).1.inspected =
      min 2 [["1", "workflow.1"]].length) := by
  decide

/-- C4 (amended): `deleted + requeued = inspected` holds for every call;
`inspected = min(limit, d)` holds whenever `limit ≤ d` — in particular
under the spec's mandated precondition `limit = snapshot depth`. -/
theorem scan_result_invariant_amended (f : ConsumerFilter) (n : Nat)
    (q : List Payload) :
    (scan f n q).1.deleted + (scan f n q).1.requeued = (scan f n q).1.inspected ∧
    (n ≤ q.length → (scan f n q).1.inspected = min n q.length) := by
  refine ⟨scan_deleted_add_requeued f n q, fun h => ?_⟩
  rw [scan_spec f n q h]
  simp [Nat.min_eq_left h]

/-- C4 witness: both equations at `limit = 1` on a one-message queue. -/
theorem scan_result_invariant_amended_witness :
    ((scan ⟨"workflow_id_or_name", ["some_other_name"]⟩ 1 [["1", "workflow.1"]]).1.deleted +
      (scan ⟨"workflow_id_or_name", ["some_other_name"]⟩ 1 [["1", "workflow.1"]]).1.requeued =
      (scan ⟨"workflow_id_or_name", ["some_other_name"]⟩ 1 [["1", "workflow.1"]]).1.inspected) ∧
    (scan ⟨"workflow_id_or_name", ["some_other_name"]⟩ 1 [["1", "workflow.1"]]).1.inspected =
      min 1 [["1", "workflow.1"]].length :=
  ⟨(scan_result_invariant_amended ⟨"workflow_id_or_name", ["some_other_name"]⟩ 1
      [["1", "workflow.1"]]).1,
    (scan_result_invariant_amended ⟨"workflow_id_or_name", ["some_other_name"]⟩ 1
      [["1", "workflow.1"]]).2 (by decide)⟩

/-- C5: the requeue path reproduces payloads exactly: a publish followed
by `consumeOne` yields the very payload that was published, republishing
it restores the identical queue, and the payload still decodes to the
original message; moreover after a full scan every remaining (requeued)
payload is byte-identical to one originally on the queue (the final
queue is a sublist of the initial one). -/
theorem requeue_payload_roundtrip :
    (∀ (wid widn : String) (params : List (String × String)),
      ∃ p restq,
        consumeOne (publishSubmission [] wid widn params) = some (p, restq) ∧
        republish restq p = publishSubmission [] wid widn params ∧
        decode p = some ⟨wid, widn, params⟩) ∧
    (∀ (f : ConsumerFilter) (q : List Payload),
      ((scan f q.length q).2).Sublist q) := by
  constructor
  · intro wid widn params
    refine ⟨encode ⟨wid, widn, params⟩, [], ?_, ?_, decode_encode _⟩
    · simp [publishSubmission, republish, consumeOne]
    · simp [publishSubmission, republish]
  · intro f q
    rw [scan_spec f q.length q le_rfl]
    simp only [List.take_length, List.drop_length, List.nil_append]
    exact List.filter_sublist q

/-- C6: for every filter, every limit and every republish oracle, a scan
of the empty queue returns `{inspected := 0, deleted := 0, requeued := 0}`
with the queue unchanged, and the fallible scan raises no error. -/
theorem scan_empty_queue :
    ∀ (f : ConsumerFilter) (n : Nat) (pub : Payload → Bool),
      scan f n [] = (⟨0, 0, 0⟩, []) ∧
      scanE pub f n [] = .ok (⟨0, 0, 0⟩, []) := by
  intro f n pub
  cases n <;> simp [scan, scanE, consumeOne]

/-- C7: a message whose payload does not carry the configured `key`
field (malformed or schema-drifted) is treated as non-matching: it never
matches the deletion test, and a scan with `limit = depth-at-call-start`
keeps every occurrence of it on the queue (requeued, never deleted), for
every filter including ones with a non-empty `valuesToDelete`. -/
theorem missing_key_always_requeued (f : ConsumerFilter) (q : List Payload)
    (m : Payload) (hnone : extract m f.key = none) :
    matchesFilter f m = false ∧
    List.count m (scan f q.length q).2 = List.count m q := by
  have hm : matchesFilter f m = false := by
    simp [matchesFilter, hnone]
  refine ⟨hm, ?_⟩
  rw [scan_spec f q.length q le_rfl]
  simp only [List.take_length, List.drop_length, List.nil_append]
  exact List.count_filter (by simp [hm])

/-- C7 witness: a well-formed payload lacking the configured field
`"custom_field"` survives a scan whose deletion set is non-empty. -/
theorem missing_key_always_requeued_witness :
    extract ["1", "workflow.1"] "custom_field" = none ∧
    matchesFilter ⟨"custom_field", ["workflow.1"]⟩ ["1", "workflow.1"] = false ∧
    List.count ["1", "workflow.1"]
      (scan ⟨"custom_field", ["workflow.1"]⟩ [["1", "workflow.1"]].length
        [["1", "workflow.1"]]).2 =
      List.count ["1", "workflow.1"] [["1", "workflow.1"]] :=
  ⟨by decide,
    missing_key_always_requeued ⟨"custom_field", ["workflow.1"]⟩
      [["1", "workflow.1"]] ["1", "workflow.1"] (by decide)⟩

/-- C8: when a republish step fails with `PublishError` during a scan
with `limit ≤ depth`, the scan stops early and surfaces the error with
the partial `ScanResult` accumulated before the failure: the partial
counts are consistent (`deleted + requeued = inspected`) and count
exactly the messages processed before the failing step, and the queue at
the failure no longer contains the matching messages already deleted —
no rollback. -/
theorem publish_error_partial_result (pub : Payload → Bool)
    (f : ConsumerFilter) (n : Nat) (q : List Payload)
    (r : ScanResult) (q' : List Payload)
    (h : n ≤ q.length) (he : scanE pub f n q = .error (r, q')) :
    r.deleted + r.requeued = r.inspected ∧
    r.inspected < n ∧
    r.deleted = ((q.take r.inspected).filter (fun m => matchesFilter f m)).length ∧
    r.requeued = ((q.take r.inspected).filter (fun m => !matchesFilter f m)).length ∧
    q' = q.drop (r.inspected + 1) ++
      (q.take r.inspected).filter (fun m => !matchesFilter f m) := by
  obtain ⟨k, hk, hr, hq⟩ := scanE_error_spec pub f n q r q' h he
  have hkl : k ≤ q.length := by omega
  have hlen : (q.take k).length = k := by
    simp [Nat.min_eq_left hkl]
  subst hr
  refine ⟨?_, by simpa using hk, by simp, by simp, by simpa using hq⟩
  have := List.length_eq_length_filter_add (l := q.take k)
    (fun m => matchesFilter f m)
  simp only []
  omega

/-- C8 witness: a republish oracle that always fails, on a one-message
non-matching queue with `limit = 1`, surfaces the empty partial result
and the drained queue. -/
theorem publish_error_partial_result_witness :
    (1 : Nat) ≤ [["1", "workflow.1"]].length ∧
    scanE (fun _ => false) ⟨"workflow_id_or_name", ["some_other_name"]⟩ 1
      [["1", "workflow.1"]] = .error (⟨0, 0, 0⟩, []) ∧
    (0 : Nat) + 0 = 0 ∧ (0 : Nat) < 1 :=
  ⟨by decide, by rfl,
    (publish_error_partial_result (fun _ => false)
      ⟨"workflow_id_or_name", ["some_other_name"]⟩ 1 [["1", "workflow.1"]]
      ⟨0, 0, 0⟩ [] (by decide) (by rfl)).1,
    (publish_error_partial_result (fun _ => false)
      ⟨"workflow_id_or_name", ["some_other_name"]⟩ 1 [["1", "workflow.1"]]
      ⟨0, 0, 0⟩ [] (by decide) (by rfl)).2.1⟩

/-- C9: with an empty `valuesToDelete`, a scan with
`limit = depth-at-call-start` is an identity pass: the final queue equals
the initial queue, nothing is deleted, and every inspected message is
requeued. -/
theorem empty_values_identity (f : ConsumerFilter) (q : List Payload)
    (h : f.valuesToDelete = []) :
    scan f q.length q = (⟨q.length, 0, q.length⟩, q) := by
  have hm : ∀ m, matchesFilter f m = false := by
    intro m
    cases hx : extract m f.key <;> simp [matchesFilter, hx, h]
  rw [scan_spec f q.length q le_rfl]
  simp [hm]

/-- C9 witness: an empty deletion set leaves a two-message queue exactly
as it was, with `deleted = 0` and `requeued = inspected = 2`. -/
theorem empty_values_identity_witness :
    (⟨"workflow_id_or_name", []⟩ : ConsumerFilter).valuesToDelete = [] ∧
    scan ⟨"workflow_id_or_name", []⟩ [["1", "workflow.1"], ["2", "x"]].length
      [["1", "workflow.1"], ["2", "x"]] =
      (⟨2, 0, 2⟩, [["1", "workflow.1"], ["2", "x"]]) :=
  ⟨by decide,
    empty_values_identity ⟨"workflow_id_or_name", []⟩
      [["1", "workflow.1"], ["2", "x"]] (by decide)⟩

/-- C10: the scan is deterministic: any two runs of the big-step scan
relation from the same filter, limit and initial queue produce the same
`ScanResult` and the same final queue, namely those computed by `scan`. -/
theorem scan_deterministic (f : ConsumerFilter) (n : Nat) (q : List Payload)
    (out₁ out₂ : ScanResult × List Payload)
    (h₁ : ScanRun f n q out₁) (h₂ : ScanRun f n q out₂) :
    out₁ = out₂ ∧ out₁ = scan f n q := by
  have e₁ := scanRun_eq f h₁
  have e₂ := scanRun_eq f h₂
  exact ⟨e₁.trans e₂.symm, e₁⟩

/-- C10 witness: two concrete derivations of a one-step requeue run
agree with each other and with `scan`. -/
theorem scan_deterministic_witness :
    ((⟨1, 0, 1⟩ : ScanResult), [[("1" : String), "workflow.1"]]) =
      ((⟨1, 0, 1⟩ : ScanResult), [[("1" : String), "workflow.1"]]) ∧
    ((⟨1, 0, 1⟩ : ScanResult), [[("1" : String), "workflow.1"]]) =
      scan ⟨"workflow_id_or_name", ["some_other_name"]⟩ 1 [["1", "workflow.1"]] :=
  scan_deterministic ⟨"workflow_id_or_name", ["some_other_name"]⟩ 1
    [["1", "workflow.1"]] _ _
    (ScanRun.requeue (by decide) (ScanRun.stop (republish [] ["1", "workflow.1"])))
    (ScanRun.requeue (by decide) (ScanRun.stop (republish [] ["1", "workflow.1"])))
